import Mathlib

/-!
Verification of the paginated S3 bucket-listing stream
(`S3ListBucketStream`, files `src/index.ts` and the sibling revision with
the `fullMetadata` option).

The TypeScript class is shallowly embedded as a deterministic state
machine.  Mutable instance fields become the `Machine` record, the
`_startRead` production loop becomes a fuel-indexed recursion over a
single-iteration step function, the provider (`listObjectsV2`) and the
consumer's backpressure replies (`push` return values) become an `Env`
record of oracles, and every stream emission (`push`, `emit`) becomes an
element of an explicit event trace.

JavaScript `undefined`/`null` values are modelled with `Option`:
a field typed `Option (Option String)` distinguishes "key absent from the
object" (outer `none`) from "key present with value `undefined`"
(`some none`), which matters for the `Object.assign` merge semantics of
request parameters.
-/

/-- One S3 object metadata record (an element of `Contents`), as produced
by the test fixture `createPage`.  The AWS SDK marks the fields optional,
but every claim treats `Key` as the item's key field, so it is a plain
`String` here. -/
structure Obj where
  Key : String
  ETag : String
  Size : Nat
  LastModified : String
  StorageClass : String
deriving Repr, DecidableEq

/-- One common-prefix grouping.  Source field name: `Prefix` (optional in
the SDK), renamed `Pfx` here. -/
structure CommonPfx where
  Pfx : Option String
deriving Repr, DecidableEq

/-- A `ListObjectsV2Output` response page.  `Contents` may be absent
(outer `none`) and its entries may be nullish (inner `none`); the code
reads both defensively or not at all, which several claims are about.
Source field name for `CommonPfx`: `CommonPrefixes`. -/
structure ListResp where
  Contents : Option (List (Option Obj))
  IsTruncated : Option Bool
  NextContinuationToken : Option String
  CommonPfx : Option (List CommonPfx)
deriving Repr, DecidableEq

/-- A partial `ListObjectsV2Request`: each field's outer `Option` records
whether the key is present on the JavaScript object at all.
`ContinuationToken`'s inner `Option` is the value (`none` = `undefined`).
Source field name for `Pfx`: `Prefix`. -/
structure PartialReq where
  Bucket : Option String
  Pfx : Option String
  ContinuationToken : Option (Option String)
  MaxKeys : Option Nat
deriving Repr, DecidableEq

/-- JavaScript truthiness of an optional boolean (absent = falsy). -/
def truthy (o : Option Bool) : Bool := o.getD false

/-- Spread/`Object.assign` merge of two partial requests: keys present on
`b` win over keys present on `a`. -/
def mergeReq (a b : PartialReq) : PartialReq where
  Bucket := b.Bucket.orElse fun _ => a.Bucket
  Pfx := b.Pfx.orElse fun _ => a.Pfx
  ContinuationToken := b.ContinuationToken.orElse fun _ => a.ContinuationToken
  MaxKeys := b.MaxKeys.orElse fun _ => a.MaxKeys

/-- `defaultListObjectsV2Options = { MaxKeys: 1000 }`. -/
def defaultListObjectsV2Options : PartialReq :=
  { Bucket := none, Pfx := none, ContinuationToken := none, MaxKeys := some 1000 }

/-- The value actually carried in a request's continuation-token slot
(collapsing "key absent" and "key present but `undefined`"). -/
def sentToken (r : PartialReq) : Option String := r.ContinuationToken.getD none

/-- The errors the embedded code can surface: a provider failure
(`reject(err)` in `_loadNextPage`), or a `TypeError` from reading a
property of `undefined`, tagged by the access site. -/
inductive JsErr where
  /-- the provider called back with an error -/
  | providerErr (msg : String)
  /-- reading `.Contents` of an undefined `_lastResponse` (unreachable) -/
  | typeErrorContents
  /-- reading `.length` of an absent `Contents` array (loop condition) -/
  | typeErrorLength
  /-- indexing into an absent `Contents` array (item access) -/
  | typeErrorIndex
  /-- reading `.Key` of a nullish entry (`fullMetadata` revision only) -/
  | typeErrorKey
deriving Repr, DecidableEq

/-- Observable stream events, parameterized by the type of pushed chunks.
`pushEv` is a `push(chunk)` data emission, `endEv` is `push(null)`
(end-of-sequence); the rest are `emit(...)` notifications.
Source event names: `restarted`, `page`, `prefix`, `stopped`, `error`. -/
inductive Event (χ : Type) where
  | restarted
  | pageEv (params : PartialReq) (data : ListResp)
  | pfxEv (p : Option String)
  | pushEv (chunk : χ)
  | endEv
  | stoppedEv
  | errorEv (e : JsErr)
deriving Repr, DecidableEq

/-- The mutable state of one stream instance: the constructor-fixed config
(`bucket`, `bucketPfx`, `listObjectsV2args` — source names `_bucket`,
`_bucketPrefix`, `_listObjectsV2args`), the cursor fields
(`_lastResponse`, `_currentIndex`, `_stopped`), plus bookkeeping that is
really environment state: `fetchCount` mirrors the mock provider's page
counter, `pushCount` numbers the consumer's `push` replies, and
`sentRequests` mirrors the mock's `receivedParams` log.
`_currentIndex` starts as `undefined` in the source but is only ever read
after a fetch has set it to 0, so `0` is a faithful initial value. -/
structure Machine where
  bucket : String
  bucketPfx : String
  listObjectsV2args : PartialReq
  lastResponse : Option ListResp
  currentIndex : Nat
  stopped : Bool
  fetchCount : Nat
  pushCount : Nat
  sentRequests : List PartialReq
deriving Repr, DecidableEq

/-- The constructor (shared shape of both revisions): merge the default
listing options under the caller's extra arguments, start with no held
response and `_stopped = true`. -/
def mkMachine (b pfx : String) (args : PartialReq) : Machine :=
  { bucket := b
    bucketPfx := pfx
    listObjectsV2args := mergeReq defaultListObjectsV2Options args
    lastResponse := none
    currentIndex := 0
    stopped := true
    fetchCount := 0
    pushCount := 0
    sentRequests := [] }

/-- The environment: `pages n` is what the provider's `n`-th invocation
returns (a page or a failure), and `pushOk n` is the boolean the consumer
side returns from the `n`-th `push(chunk)` call (`false` = buffer full). -/
structure Env where
  pages : Nat → Except String ListResp
  pushOk : Nat → Bool

/-- The continuation token the stream would send right now:
`this._lastResponse ? this._lastResponse.NextContinuationToken : undefined`. -/
def curTok (m : Machine) : Option String :=
  m.lastResponse.bind fun r => r.NextContinuationToken

/-- The request built for one page fetch with an explicit token:
`Object.assign({}, this._listObjectsV2args, currentParams)` where
`currentParams` always carries the keys `Bucket`, `Prefix` and
`ContinuationToken` (the latter possibly with value `undefined`), so those
three always override the caller-supplied extra arguments. -/
def mkReq (args : PartialReq) (b pfx : String) (tok : Option String) : PartialReq :=
  mergeReq args
    { Bucket := some b, Pfx := some pfx, ContinuationToken := some tok, MaxKeys := none }

/-- The request `_loadNextPage` sends from state `m`. -/
def reqOf (m : Machine) : PartialReq :=
  mkReq m.listObjectsV2args m.bucket m.bucketPfx (curTok m)

/-- How one run of the `_startRead` loop can end. -/
inductive RunExit where
  | ended
  | paused
  | errored (e : JsErr)
  | outOfFuel
  | noop
deriving Repr, DecidableEq

/-- Result of one pass through the body of the `while (true)` loop:
continue, terminate (`push(null)`), pause (buffer full), or an exception
propagating to the `try/catch`. -/
inductive IterOut (χ : Type) where
  | next (evs : List (Event χ)) (m : Machine)
  | ended (evs : List (Event χ)) (m : Machine)
  | paused (evs : List (Event χ)) (m : Machine)
  | thrown (evs : List (Event χ)) (m : Machine) (e : JsErr)
deriving Repr, DecidableEq

/-- The `push`ed data chunks of a trace, in order. -/
def outputs {χ : Type} (tr : List (Event χ)) : List χ :=
  tr.filterMap fun e =>
    match e with
    | Event.pushEv c => some c
    | _ => none

/-- The item sequence of a page: the non-nullish entries of its `Contents`
array, in order (an absent array contributes nothing). -/
def pageItems (p : ListResp) : List Obj :=
  (p.Contents.getD []).filterMap id

/-- One `prefix` notification per common-prefix grouping, in response
order (source: the `CommonPrefixes` loop in `_startRead`). -/
def pfxEvs {χ : Type} (p : ListResp) : List (Event χ) :=
  match p.CommonPfx with
  | none => []
  | some l => l.map fun cp => Event.pfxEv cp.Pfx

namespace IndexTs

/-!
Embedding of `src/index.ts` (the revision with the nullish-entry guard and
`CommonPrefixes` notifications; pushed chunks are the raw metadata
records, as the class always runs in object mode).
-/

/-- `_loadNextPage`: build the merged params, log them (the mock's
`receivedParams`), call the provider; on success replace `_lastResponse`,
zero `_currentIndex` and emit the `page` event; on failure reject. -/
def loadNextPage (env : Env) (m : Machine) :
    List (Event Obj) × Machine × Option JsErr :=
  let params := reqOf m
  let m1 := { m with sentRequests := m.sentRequests ++ [params],
                     fetchCount := m.fetchCount + 1 }
  match env.pages m.fetchCount with
  | Except.error e => ([], m1, some (JsErr.providerErr e))
  | Except.ok data =>
      ([Event.pageEv params data],
       { m1 with lastResponse := some data, currentIndex := 0 }, none)

/-- Lines 101–107 of `_startRead`: read
`Contents[this._currentIndex++]` (JavaScript out-of-range indexing gives
`undefined`, and indexing an absent array throws after the increment），
then `if (chunkToPush != null && !this.push(chunkToPush))` pause. -/
def emitStep (env : Env) (m : Machine) (evs : List (Event Obj)) : IterOut Obj :=
  match m.lastResponse with
  | none => IterOut.thrown evs m JsErr.typeErrorContents
  | some r =>
    match r.Contents with
    | none => IterOut.thrown evs { m with currentIndex := m.currentIndex + 1 }
        JsErr.typeErrorIndex
    | some cs =>
      let idx := m.currentIndex
      let m1 := { m with currentIndex := idx + 1 }
      let chunkToPush : Option Obj := (cs.get? idx).getD none
      match chunkToPush with
      | none => IterOut.next evs m1
      | some c =>
        let ok := env.pushOk m1.pushCount
        let m2 := { m1 with pushCount := m1.pushCount + 1 }
        if ok then IterOut.next (evs ++ [Event.pushEv c]) m2
        else IterOut.paused (evs ++ [Event.pushEv c, Event.stoppedEv])
          { m2 with stopped := true }

/-- The fetch path of the loop body: `await this._loadNextPage()`, then
the `CommonPrefixes` notifications, then fall through to the emission
code of the same pass. -/
def fetchThenEmit (env : Env) (m : Machine) : IterOut Obj :=
  match loadNextPage env m with
  | (evs, m1, some e) => IterOut.thrown evs m1 e
  | (evs, m1, none) =>
      let pevs :=
        match m1.lastResponse with
        | none => []
        | some d => pfxEvs d
      emitStep env m1 (evs ++ pevs)

/-- One pass through the `while (true)` body of `_startRead`:
the guard `_lastResponse == null || _currentIndex >= Contents.length`
(reading `.length` throws if `Contents` is absent), then either terminate
(`push(null)` when the held page is not truncated), fetch, or emit. -/
def iter (env : Env) (m : Machine) : IterOut Obj :=
  match m.lastResponse with
  | none => fetchThenEmit env m
  | some r =>
    match r.Contents with
    | none => IterOut.thrown [] m JsErr.typeErrorLength
    | some cs =>
      if cs.length ≤ m.currentIndex then
        if truthy r.IsTruncated then fetchThenEmit env m
        else IterOut.ended [Event.endEv] m
      else emitStep env m []

/-- The `while (true)` loop, fuel-indexed.  A `thrown` pass lands in the
`catch`, which emits the `error` event and returns. -/
def loopRun : Nat → Env → Machine → List (Event Obj) × Machine × RunExit
  | 0, _, m => ([], m, RunExit.outOfFuel)
  | Nat.succ fuel, env, m =>
    match iter env m with
    | IterOut.next evs m1 =>
        let r := loopRun fuel env m1
        (evs ++ r.1, r.2)
    | IterOut.ended evs m1 => (evs, m1, RunExit.ended)
    | IterOut.paused evs m1 => (evs, m1, RunExit.paused)
    | IterOut.thrown evs m1 e => (evs ++ [Event.errorEv e], m1, RunExit.errored e)

/-- `_startRead`: clear `_stopped`, emit `restarted`, run the loop. -/
def startRead (fuel : Nat) (env : Env) (m : Machine) :
    List (Event Obj) × Machine × RunExit :=
  let r := loopRun fuel env { m with stopped := false }
  (Event.restarted :: r.1, r.2)

/-- `_read`: restart production only when `_stopped` is set. -/
def read (fuel : Nat) (env : Env) (m : Machine) :
    List (Event Obj) × Machine × RunExit :=
  if m.stopped then startRead fuel env m else ([], m, RunExit.noop)

end IndexTs

namespace Part000

/-!
Embedding of the sibling revision of `index.ts` (the source file with the
`fullMetadata` stream option).  Its `_loadNextPage` is identical to the
one above; its `_startRead` loop differs in the emission code: no
`CommonPrefixes` handling, and
`chunkToPush = this._fullMetadata ? metadata : metadata.Key` with no
nullish guard before `this.push(chunkToPush)`.
-/

/-- A value pushed by this revision: the raw metadata value in
`fullMetadata` mode (possibly `undefined`), or just the object key. -/
inductive Chunk where
  | full (o : Option Obj)
  | keyOnly (k : String)
deriving Repr, DecidableEq

/-- Stream options: `objectMode` (from the host stream options) and the
added `fullMetadata` flag.  `none` = key absent from the options object. -/
structure StreamOptions where
  objectMode : Option Bool
  fullMetadata : Option Bool
deriving Repr, DecidableEq

/-- `defaultOptions = { fullMetadata: false }`. -/
def defaultOptions : StreamOptions :=
  { objectMode := none, fullMetadata := some false }

/-- The spread `{ ...a, ...b }` on options objects. -/
def spreadOptions (a b : StreamOptions) : StreamOptions where
  objectMode := b.objectMode.orElse fun _ => a.objectMode
  fullMetadata := b.fullMetadata.orElse fun _ => a.fullMetadata

/-- The constructor's option processing:
`mergedOptions = { ...defaultOptions, ...options }`, then
`if (mergedOptions.fullMetadata) mergedOptions.objectMode = true`, and the
result is handed to the `Readable` super constructor. -/
def mergedOptions (options : StreamOptions) : StreamOptions :=
  let merged := spreadOptions defaultOptions options
  if truthy merged.fullMetadata then { merged with objectMode := some true }
  else merged

/-- Lines 113–120 of this revision's `_startRead`:
`metadata = Contents[this._currentIndex++]` (increment happens before the
potential throw), `chunkToPush = fullMetadata ? metadata : metadata.Key`
(reading `.Key` of a nullish `metadata` throws), then
`if (!this.push(chunkToPush))` pause. -/
def emitStep (fm : Bool) (env : Env) (m : Machine) (evs : List (Event Chunk)) :
    IterOut Chunk :=
  match m.lastResponse with
  | none => IterOut.thrown evs m JsErr.typeErrorContents
  | some r =>
    match r.Contents with
    | none => IterOut.thrown evs { m with currentIndex := m.currentIndex + 1 }
        JsErr.typeErrorIndex
    | some cs =>
      let idx := m.currentIndex
      let m1 := { m with currentIndex := idx + 1 }
      let metadata : Option Obj := (cs.get? idx).getD none
      let chunkOrThrow : Except JsErr Chunk :=
        if fm then Except.ok (Chunk.full metadata)
        else
          match metadata with
          | none => Except.error JsErr.typeErrorKey
          | some o => Except.ok (Chunk.keyOnly o.Key)
      match chunkOrThrow with
      | Except.error e => IterOut.thrown evs m1 e
      | Except.ok ch =>
        let ok := env.pushOk m1.pushCount
        let m2 := { m1 with pushCount := m1.pushCount + 1 }
        if ok then IterOut.next (evs ++ [Event.pushEv ch]) m2
        else IterOut.paused (evs ++ [Event.pushEv ch, Event.stoppedEv])
          { m2 with stopped := true }

/-- `_loadNextPage` of this revision (same code as the other revision,
restated at this chunk type). -/
def loadNextPage (env : Env) (m : Machine) :
    List (Event Chunk) × Machine × Option JsErr :=
  let params := reqOf m
  let m1 := { m with sentRequests := m.sentRequests ++ [params],
                     fetchCount := m.fetchCount + 1 }
  match env.pages m.fetchCount with
  | Except.error e => ([], m1, some (JsErr.providerErr e))
  | Except.ok data =>
      ([Event.pageEv params data],
       { m1 with lastResponse := some data, currentIndex := 0 }, none)

/-- Fetch then fall through to the emission code (no `CommonPrefixes`
handling in this revision). -/
def fetchThenEmit (fm : Bool) (env : Env) (m : Machine) : IterOut Chunk :=
  match loadNextPage env m with
  | (evs, m1, some e) => IterOut.thrown evs m1 e
  | (evs, m1, none) => emitStep fm env m1 evs

/-- One pass through this revision's `while (true)` body
(`typeof this._lastResponse === 'undefined'` and the truthiness test
`this._lastResponse && !this._lastResponse.IsTruncated` coincide with the
other revision's null checks under this modelling). -/
def iter (fm : Bool) (env : Env) (m : Machine) : IterOut Chunk :=
  match m.lastResponse with
  | none => fetchThenEmit fm env m
  | some r =>
    match r.Contents with
    | none => IterOut.thrown [] m JsErr.typeErrorLength
    | some cs =>
      if cs.length ≤ m.currentIndex then
        if truthy r.IsTruncated then fetchThenEmit fm env m
        else IterOut.ended [Event.endEv] m
      else emitStep fm env m []

end Part000

/-! ### Environments and run-shape definitions used by the theorems -/

/-- The environment induced by a fixed list of pages with an
always-willing consumer: the `i`-th fetch returns the `i`-th page and any
fetch beyond the list fails (such a fetch never happens in the runs the
theorems describe). -/
def envOf (ps : List ListResp) : Env where
  pages := fun i =>
    match ps.get? i with
    | some p => Except.ok p
    | none => Except.error "exhausted"
  pushOk := fun _ => true

/-- The environment whose fetches return the given pages and whose next
fetch after them fails with `cause`, with an always-willing consumer. -/
def envFail (ps : List ListResp) (cause : String) : Env where
  pages := fun i =>
    match ps.get? i with
    | some p => Except.ok p
    | none => Except.error cause
  pushOk := fun _ => true

namespace IndexTs

/-- The loop is about to fetch: either no response is held yet, or the
held page (with a present `Contents`) is exhausted and marked truncated. -/
def aboutToFetch (m : Machine) : Prop :=
  m.lastResponse = none ∨
    ∃ r cs, m.lastResponse = some r ∧ r.Contents = some cs ∧
      cs.length ≤ m.currentIndex ∧ truthy r.IsTruncated = true

/-- State after draining the held `Contents` list `cs` from the current
index to its end (skipping nullish entries, pushing the rest). -/
def pageFinal (m : Machine) (cs : List (Option Obj)) : Machine :=
  { m with currentIndex := max m.currentIndex cs.length,
           pushCount := m.pushCount + ((cs.drop m.currentIndex).filterMap id).length }

/-- The full event trace of fetching and draining the given chain of
pages, starting from continuation token `tok`: per page, the `page` event
with the exact request sent, then the `prefix` notifications, then the
item emissions. -/
def chainTrace (args : PartialReq) (b pfx : String) :
    Option String → List ListResp → List (Event Obj)
  | _, [] => []
  | tok, p :: rest =>
      (Event.pageEv (mkReq args b pfx tok) p ::
        (pfxEvs p ++ (pageItems p).map Event.pushEv)) ++
      chainTrace args b pfx p.NextContinuationToken rest

/-- The requests sent while fetching the given chain of pages: each one
carries the previous page's `NextContinuationToken` (the first carries
`tok`). -/
def expectedReqs (args : PartialReq) (b pfx : String) :
    Option String → List ListResp → List PartialReq
  | _, [] => []
  | tok, p :: rest =>
      mkReq args b pfx tok :: expectedReqs args b pfx p.NextContinuationToken rest

/-- The machine state after fetching and fully draining each page of the
chain in turn. -/
def stepChain : Machine → List ListResp → Machine
  | m, [] => m
  | m, p :: rest =>
      stepChain
        { m with lastResponse := some p,
                 currentIndex := max 1 (p.Contents.getD []).length,
                 fetchCount := m.fetchCount + 1,
                 pushCount := m.pushCount + (pageItems p).length,
                 sentRequests := m.sentRequests ++
                   [mkReq m.listObjectsV2args m.bucket m.bucketPfx (curTok m)] }
        rest

/-- Loop passes consumed by fetching and draining one page (`max` because
even an empty page costs the fetch pass). -/
def needFuel (p : ListResp) : Nat := max (p.Contents.getD []).length 1

/-- Loop passes consumed by a chain of pages. -/
def needChain (rest : List ListResp) : Nat := (rest.map needFuel).sum

end IndexTs

namespace IndexTs

/-- Draining the held page: starting anywhere in a held `Contents` list
`cs` with a consumer that never signals backpressure, the loop pushes
exactly the non-nullish entries from the cursor to the end of the page, in
order, and continues from the exhausted-page state. -/
lemma loopRun_page (env : Env) (hOk : ∀ k, env.pushOk k = true)
    (r : ListResp) (cs : List (Option Obj)) :
    ∀ (n fuel : Nat) (m : Machine), m.lastResponse = some r → r.Contents = some cs →
    n = cs.length - m.currentIndex →
    loopRun (n + fuel) env m =
      ((((cs.drop m.currentIndex).filterMap id).map Event.pushEv) ++
         (loopRun fuel env (pageFinal m cs)).1,
       (loopRun fuel env (pageFinal m cs)).2) := by
  intro n
  induction n with
  | zero =>
    intro fuel m hr hc hn
    have hle : cs.length ≤ m.currentIndex := Nat.le_of_sub_eq_zero hn.symm
    have hdrop : cs.drop m.currentIndex = [] := List.drop_eq_nil_of_le hle
    have hpf : pageFinal m cs = m := by
      simp [pageFinal, hdrop, Nat.max_eq_left hle]
    rw [hpf, hdrop]
    simp
  | succ n ih =>
    intro fuel m hr hc hn
    have hidx : m.currentIndex < cs.length := by omega
    have hget : cs.get? m.currentIndex = some cs[m.currentIndex] := by
      rw [List.get?_eq_getElem?, List.getElem?_eq_getElem hidx]
    have hdrop : cs.drop m.currentIndex = cs[m.currentIndex] :: cs.drop (m.currentIndex + 1) :=
      List.drop_eq_getElem_cons hidx
    have harith : n + 1 + fuel = (n + fuel) + 1 := by omega
    rw [harith]
    cases hcase : cs[m.currentIndex] with
    | none =>
      have hiter : iter env m = IterOut.next []
          { m with currentIndex := m.currentIndex + 1 } := by
        simp [iter, emitStep, hr, hc, Nat.not_le.mpr hidx,
          List.getElem?_eq_getElem hidx, hcase]
      have hih := ih fuel { m with currentIndex := m.currentIndex + 1 }
        (by simp [hr]) hc (by simp; omega)
      have hpf : pageFinal { m with currentIndex := m.currentIndex + 1 } cs
          = pageFinal m cs := by
        simp [pageFinal, hdrop, hcase, Nat.max_eq_right (Nat.le_of_lt hidx),
          Nat.max_eq_right hidx]
      simp only [loopRun, hiter]
      rw [hih, hpf, hdrop, hcase]
      simp
    | some c =>
      have hiter : iter env m = IterOut.next [Event.pushEv c]
          { m with currentIndex := m.currentIndex + 1,
                   pushCount := m.pushCount + 1 } := by
        simp [iter, emitStep, hr, hc, Nat.not_le.mpr hidx,
          List.getElem?_eq_getElem hidx, hcase, hOk]
      have hih := ih fuel { m with currentIndex := m.currentIndex + 1,
                                   pushCount := m.pushCount + 1 }
        (by simp [hr]) hc (by simp; omega)
      have hpf : pageFinal { m with currentIndex := m.currentIndex + 1,
                                    pushCount := m.pushCount + 1 } cs
          = pageFinal m cs := by
        simp [pageFinal, hdrop, hcase, Nat.max_eq_right (Nat.le_of_lt hidx),
          Nat.max_eq_right hidx]
        omega
      simp only [loopRun, hiter]
      rw [hih, hpf, hdrop, hcase]
      simp

end IndexTs

namespace IndexTs

/-- The fetch pass of the loop: from an about-to-fetch state with a
successful provider reply `p` (whose `Contents` is present), one pass
emits the `page` event carrying the exact merged request, then the
`prefix` notifications in response order, then handles entry 0 of the new
page (pushing it when non-nullish), leaving the cursor at 1. -/
lemma iter_fetch (env : Env) (m : Machine) (p : ListResp) (cs : List (Option Obj))
    (hA : aboutToFetch m) (hp : env.pages m.fetchCount = Except.ok p)
    (hcs : p.Contents = some cs) (hOk : ∀ k, env.pushOk k = true) :
    iter env m = IterOut.next
      (Event.pageEv (reqOf m) p ::
        (pfxEvs p ++ ((cs.take 1).filterMap id).map Event.pushEv))
      { m with lastResponse := some p, currentIndex := 1,
               fetchCount := m.fetchCount + 1,
               pushCount := m.pushCount + ((cs.take 1).filterMap id).length,
               sentRequests := m.sentRequests ++ [reqOf m] } := by
  have hfte : iter env m = fetchThenEmit env m := by
    rcases hA with h | ⟨r, cs0, hr, hc0, hlen, ht⟩
    · simp [iter, h]
    · simp [iter, hr, hc0, hlen, ht]
  rw [hfte]
  cases cs with
  | nil => simp [fetchThenEmit, loadNextPage, hp, hcs, emitStep, reqOf]
  | cons e t =>
    cases e with
    | none => simp [fetchThenEmit, loadNextPage, hp, hcs, emitStep, reqOf]
    | some c => simp [fetchThenEmit, loadNextPage, hp, hcs, emitStep, reqOf, hOk]

end IndexTs

namespace IndexTs

/-- Processing a chain of pages: from an about-to-fetch state, with the
provider serving page `i` of the chain on call `fetchCount + i`, every
page's `Contents` present, every non-final page marked truncated and a
consumer that never signals backpressure, the loop produces exactly
`chainTrace` (the per-page `page` event, `prefix` notifications and item
emissions, with the continuation tokens chained), reaching `stepChain`'s
state, and then continues there. -/
lemma loopRun_chain (env : Env) (hOk : ∀ k, env.pushOk k = true) :
    ∀ (rest : List ListResp) (m : Machine) (f : Nat),
    (rest = [] ∨ aboutToFetch m) →
    (∀ i (hi : i < rest.length),
      env.pages (m.fetchCount + i) = Except.ok (rest.get ⟨i, hi⟩)) →
    (∀ p ∈ rest, (p.Contents).isSome = true) →
    (∀ p ∈ rest.dropLast, truthy p.IsTruncated = true) →
    loopRun (needChain rest + f) env m =
      ((chainTrace m.listObjectsV2args m.bucket m.bucketPfx (curTok m) rest) ++
         (loopRun f env (stepChain m rest)).1,
       (loopRun f env (stepChain m rest)).2) := by
  intro rest
  induction rest with
  | nil =>
    intro m f _ _ _ _
    simp [needChain, chainTrace, stepChain]
  | cons p rest ih =>
    intro m f hA halign hcont htr
    have hAm : aboutToFetch m := by
      rcases hA with h | h
      · exact absurd h (by simp)
      · exact h
    obtain ⟨cs, hcs⟩ := Option.isSome_iff_exists.mp (hcont p (by simp))
    have hp : env.pages m.fetchCount = Except.ok p := by
      simpa using halign 0 (by simp)
    have hneed : needChain (p :: rest) + f
        = ((cs.length - 1) + ((needChain rest + f))) + 1 := by
      simp [needChain, needFuel, hcs]
      omega
    rw [hneed]
    simp only [loopRun, iter_fetch env m p cs hAm hp hcs hOk]
    set m1 : Machine :=
      { m with lastResponse := some p, currentIndex := 1,
               fetchCount := m.fetchCount + 1,
               pushCount := m.pushCount + ((cs.take 1).filterMap id).length,
               sentRequests := m.sentRequests ++ [reqOf m] } with hm1
    have hpage := loopRun_page env hOk p cs (cs.length - 1) (needChain rest + f) m1
      (by simp [hm1]) hcs (by simp [hm1])
    rw [hpage]
    have hsplit : cs.filterMap id = (cs.take 1).filterMap id ++ (cs.drop 1).filterMap id := by
      rw [← List.filterMap_append, List.take_append_drop]
    set m3 : Machine := pageFinal m1 cs with hm3
    have hm3eq : m3 =
        { m with lastResponse := some p,
                 currentIndex := max 1 (p.Contents.getD []).length,
                 fetchCount := m.fetchCount + 1,
                 pushCount := m.pushCount + (pageItems p).length,
                 sentRequests := m.sentRequests ++
                   [mkReq m.listObjectsV2args m.bucket m.bucketPfx (curTok m)] } := by
      simp [hm3, pageFinal, hm1, pageItems, hcs, reqOf]
      rw [hsplit]
      simp [List.length_append]
      omega
    have hstep : stepChain m (p :: rest) = stepChain m3 rest := by
      rw [stepChain, hm3eq]
    have hih := ih m3 f
      (by
        cases hrest : rest with
        | nil => exact Or.inl rfl
        | cons q t =>
          refine Or.inr (Or.inr ⟨p, cs, ?_, hcs, ?_, ?_⟩)
          · rw [hm3eq]
          · rw [hm3eq]
            simp [hcs, Nat.le_max_right]
          · refine htr p ?_
            rw [hrest, List.dropLast_cons_of_ne_nil (by simp)]
            simp)
      (by
        intro i hi
        have := halign (i + 1) (by simpa using Nat.succ_lt_succ hi)
        have hfc : m3.fetchCount = m.fetchCount + 1 := by rw [hm3eq]
        rw [hfc]
        have harr : m.fetchCount + 1 + i = m.fetchCount + (i + 1) := by omega
        rw [harr, this]
        rfl)
      (by intro q hq; exact hcont q (by simp [hq]))
      (by
        intro q hq
        refine htr q ?_
        rcases List.eq_nil_or_concat rest with h | ⟨t, a, hta⟩
        · rw [h] at hq; simp at hq
        · rw [List.dropLast_cons_of_ne_nil (by simp [hta])]
          exact List.mem_cons_of_mem p hq)
    rw [hih]
    have hargs3 : m3.listObjectsV2args = m.listObjectsV2args := by rw [hm3eq]
    have hb3 : m3.bucket = m.bucket := by rw [hm3eq]
    have hpfx3 : m3.bucketPfx = m.bucketPfx := by rw [hm3eq]
    have htok3 : curTok m3 = p.NextContinuationToken := by
      rw [hm3eq]; simp [curTok]
    rw [hargs3, hb3, hpfx3, htok3, hstep]
    have htrace : chainTrace m.listObjectsV2args m.bucket m.bucketPfx (curTok m) (p :: rest)
        = (Event.pageEv (mkReq m.listObjectsV2args m.bucket m.bucketPfx (curTok m)) p ::
            (pfxEvs p ++ (pageItems p).map Event.pushEv)) ++
          chainTrace m.listObjectsV2args m.bucket m.bucketPfx p.NextContinuationToken rest := by
      rw [chainTrace]
    rw [htrace]
    have hitems : (pageItems p).map Event.pushEv
        = ((cs.take 1).filterMap id).map (Event.pushEv (χ := Obj)) ++
          ((cs.drop 1).filterMap id).map Event.pushEv := by
      rw [pageItems, hcs]
      simp only [Option.getD_some]
      rw [hsplit, List.map_append]
    have hdrop1 : m1.currentIndex = 1 := by rw [hm1]
    rw [hdrop1, hitems, reqOf]
    simp [List.append_assoc]

/-- Exhausted, non-truncated held page: the very next pass pushes `null`
(end-of-sequence) and returns, with no fetch, no emission and no state
change. -/
lemma loopRun_ended_now (env : Env) (m : Machine) (r : ListResp)
    (cs : List (Option Obj)) (hr : m.lastResponse = some r)
    (hc : r.Contents = some cs) (hlen : cs.length ≤ m.currentIndex)
    (ht : truthy r.IsTruncated = false) (fuel : Nat) :
    loopRun (fuel + 1) env m = ([Event.endEv], m, RunExit.ended) := by
  simp [loopRun, iter, hr, hc, hlen, ht]

/-- In an about-to-fetch state the loop body takes the fetch path. -/
lemma iter_toFetch (env : Env) (m : Machine) (hA : aboutToFetch m) :
    iter env m = fetchThenEmit env m := by
  rcases hA with h | ⟨r, cs0, hr, hc0, hlen, ht⟩
  · simp [iter, h]
  · simp [iter, hr, hc0, hlen, ht]

/-- A failing fetch: the request is still sent (and logged), no `page`
event fires, the rejection lands in the `catch`, and the run ends with a
single `error` event carrying the provider's cause. -/
lemma loopRun_fail (env : Env) (m : Machine) (e : String)
    (hA : aboutToFetch m) (hp : env.pages m.fetchCount = Except.error e)
    (fuel : Nat) :
    loopRun (fuel + 1) env m =
      ([Event.errorEv (JsErr.providerErr e)],
       { m with sentRequests := m.sentRequests ++ [reqOf m],
                fetchCount := m.fetchCount + 1 },
       RunExit.errored (JsErr.providerErr e)) := by
  simp [loopRun, iter_toFetch env m hA, fetchThenEmit, loadNextPage, hp]

/-- A run that did not stop for lack of fuel yields the same result with
any extra fuel. -/
lemma loopRun_mono (env : Env) :
    ∀ (fuel : Nat) (m : Machine) (tr : List (Event Obj)) (m' : Machine) (ex : RunExit),
    loopRun fuel env m = (tr, m', ex) → ex ≠ RunExit.outOfFuel →
    ∀ d, loopRun (fuel + d) env m = (tr, m', ex) := by
  intro fuel
  induction fuel with
  | zero =>
    intro m tr m' ex h hne d
    rw [loopRun] at h
    exact absurd (congrArg (fun t => t.2.2) h).symm hne
  | succ fuel ih =>
    intro m tr m' ex h hne d
    have harith : fuel + 1 + d = (fuel + d) + 1 := by omega
    rw [harith]
    rw [loopRun] at h ⊢
    cases hi : iter env m with
    | next evs m1 =>
      simp only [hi] at h ⊢
      rcases hrec : loopRun fuel env m1 with ⟨tr1, m1', ex1⟩
      rw [hrec] at h
      simp only [Prod.mk.injEq] at h
      obtain ⟨h1, h2, h3⟩ := h
      rw [ih m1 tr1 m1' ex1 hrec (by rw [h3]; exact hne) d]
      simp [h1, h2, h3]
    | ended evs m1 => simp only [hi] at h ⊢; exact h
    | paused evs m1 => simp only [hi] at h ⊢; exact h
    | thrown evs m1 e => simp only [hi] at h ⊢; exact h

/-- `stepChain` never touches the constructor-fixed configuration or the
`_stopped` flag. -/
lemma stepChain_config (rest : List ListResp) : ∀ m : Machine,
    (stepChain m rest).bucket = m.bucket ∧
    (stepChain m rest).bucketPfx = m.bucketPfx ∧
    (stepChain m rest).listObjectsV2args = m.listObjectsV2args ∧
    (stepChain m rest).stopped = m.stopped := by
  induction rest with
  | nil => intro m; simp [stepChain]
  | cons p rest ih => intro m; simpa [stepChain] using ih _

/-- The requests logged while processing a chain are exactly
`expectedReqs`: each carries the previous page's continuation token. -/
lemma stepChain_sent (rest : List ListResp) : ∀ m : Machine,
    (stepChain m rest).sentRequests
      = m.sentRequests ++
        expectedReqs m.listObjectsV2args m.bucket m.bucketPfx (curTok m) rest := by
  induction rest with
  | nil => intro m; simp [stepChain, expectedReqs]
  | cons p rest ih =>
    intro m
    rw [stepChain, ih, expectedReqs]
    simp [curTok]

/-- After a nonempty chain, the machine holds the chain's last page with
the cursor at (at least) its length. -/
lemma stepChain_hold (rest : List ListResp) : ∀ (m : Machine) (q : ListResp),
    rest.getLast? = some q →
    (stepChain m rest).lastResponse = some q ∧
    (stepChain m rest).currentIndex = max 1 (q.Contents.getD []).length := by
  induction rest with
  | nil => intro m q h; simp at h
  | cons p rest ih =>
    intro m q h
    cases hrest : rest with
    | nil =>
      subst hrest
      simp at h
      subst h
      simp [stepChain]
    | cons r t =>
      have h' : rest.getLast? = some q := by
        rw [hrest] at h
        rw [List.getLast?_cons_cons] at h
        rw [hrest]
        exact h
      rw [stepChain]
      rw [← hrest]
      exact ih _ q h'

@[simp] lemma outputs_nil {χ : Type} : outputs ([] : List (Event χ)) = [] := rfl

@[simp] lemma outputs_cons_restarted {χ : Type} (t : List (Event χ)) :
    outputs (Event.restarted :: t) = outputs t := rfl

@[simp] lemma outputs_cons_page {χ : Type} (q : PartialReq) (d : ListResp)
    (t : List (Event χ)) : outputs (Event.pageEv q d :: t) = outputs t := rfl

@[simp] lemma outputs_cons_pfx {χ : Type} (s : Option String) (t : List (Event χ)) :
    outputs (Event.pfxEv s :: t) = outputs t := rfl

@[simp] lemma outputs_cons_push {χ : Type} (c : χ) (t : List (Event χ)) :
    outputs (Event.pushEv c :: t) = c :: outputs t := rfl

@[simp] lemma outputs_cons_end {χ : Type} (t : List (Event χ)) :
    outputs (Event.endEv :: t) = outputs t := rfl

@[simp] lemma outputs_cons_stopped {χ : Type} (t : List (Event χ)) :
    outputs (Event.stoppedEv :: t) = outputs t := rfl

@[simp] lemma outputs_cons_error {χ : Type} (e : JsErr) (t : List (Event χ)) :
    outputs (Event.errorEv e :: t) = outputs t := rfl

@[simp] lemma outputs_append {χ : Type} (a b : List (Event χ)) :
    outputs (a ++ b) = outputs a ++ outputs b :=
  List.filterMap_append a b _

@[simp] lemma outputs_map_push {χ : Type} (l : List χ) :
    outputs (l.map Event.pushEv) = l := by
  induction l with
  | nil => rfl
  | cons c t ih => simp [ih]

@[simp] lemma outputs_pfx_map {χ : Type} (l : List CommonPfx) :
    outputs ((l.map fun cp => Event.pfxEv cp.Pfx) : List (Event χ)) = [] := by
  induction l with
  | nil => rfl
  | cons cp t ih => simpa using ih

/-- A `prefix` notification block contributes no pushed data. -/
lemma outputs_pfxEvs {χ : Type} (p : ListResp) :
    outputs (pfxEvs p : List (Event χ)) = [] := by
  cases h : p.CommonPfx <;> simp [pfxEvs, h]

/-- The pushed data of a chain trace is exactly the concatenation of the
pages' item sequences, in page order. -/
lemma outputs_chainTrace (args : PartialReq) (b pfx : String) :
    ∀ (tok : Option String) (ps : List ListResp),
    outputs (chainTrace args b pfx tok ps) = ps.flatMap pageItems := by
  intro tok ps
  induction ps generalizing tok with
  | nil => simp [chainTrace]
  | cons p t ih =>
    rw [chainTrace]
    simp [outputs_pfxEvs, ih]

/-- Whether an event is the `error` notification. -/
def isErrorEv {χ : Type} : Event χ → Bool
  | Event.errorEv _ => true
  | _ => false

@[simp] lemma isErrorEv_restarted {χ : Type} :
    isErrorEv (Event.restarted : Event χ) = false := rfl

@[simp] lemma isErrorEv_page {χ : Type} (q : PartialReq) (d : ListResp) :
    isErrorEv (Event.pageEv q d : Event χ) = false := rfl

@[simp] lemma isErrorEv_pfx {χ : Type} (s : Option String) :
    isErrorEv (Event.pfxEv s : Event χ) = false := rfl

@[simp] lemma isErrorEv_push {χ : Type} (c : χ) :
    isErrorEv (Event.pushEv c) = false := rfl

@[simp] lemma isErrorEv_end {χ : Type} :
    isErrorEv (Event.endEv : Event χ) = false := rfl

@[simp] lemma isErrorEv_stopped {χ : Type} :
    isErrorEv (Event.stoppedEv : Event χ) = false := rfl

@[simp] lemma isErrorEv_error {χ : Type} (e : JsErr) :
    isErrorEv (Event.errorEv e : Event χ) = true := rfl

@[simp] lemma filter_err_pfx_map {χ : Type} (l : List CommonPfx) :
    ((l.map fun cp => Event.pfxEv cp.Pfx) : List (Event χ)).filter isErrorEv = [] := by
  induction l with
  | nil => rfl
  | cons cp t ih => simp [ih]

/-- A `prefix` notification block contains no `error` notification. -/
lemma pfxEvs_no_error {χ : Type} (p : ListResp) :
    (pfxEvs p : List (Event χ)).filter isErrorEv = [] := by
  cases h : p.CommonPfx <;> simp [pfxEvs, h]

/-- A chain trace of successful pages contains no `error` notification. -/
lemma chainTrace_no_error (args : PartialReq) (b pfx : String) :
    ∀ (tok : Option String) (ps : List ListResp),
    (chainTrace args b pfx tok ps).filter isErrorEv = [] := by
  intro tok ps
  induction ps generalizing tok with
  | nil => simp [chainTrace]
  | cons p t ih =>
    rw [chainTrace]
    simp [List.filter_append, ih, pfxEvs_no_error, List.filter_map, Function.comp]

/-- The complete successful run, from the first `_read` on a fresh
machine: with the provider serving the chain `pages` (every `Contents`
present, every page but the last truncated, the last not truncated) and a
consumer that never signals backpressure, the stream produces `restarted`,
the chain trace, and the end-of-sequence signal, with any sufficient
fuel. -/
lemma read_chain (pages : List ListResp) (b pfx : String) (args : PartialReq)
    (hne : pages ≠ [])
    (hcont : ∀ p ∈ pages, (p.Contents).isSome = true)
    (htr : ∀ p ∈ pages.dropLast, truthy p.IsTruncated = true)
    (hlast : truthy (pages.getLast hne).IsTruncated = false) :
    ∀ fuel, needChain pages + 1 ≤ fuel →
    read fuel (envOf pages) (mkMachine b pfx args) =
      (Event.restarted ::
        (chainTrace (mergeReq defaultListObjectsV2Options args) b pfx none pages ++
          [Event.endEv]),
       stepChain { mkMachine b pfx args with stopped := false } pages,
       RunExit.ended) := by
  intro fuel hfuel
  set m0 : Machine := { mkMachine b pfx args with stopped := false } with hm0
  have hOk : ∀ k, (envOf pages).pushOk k = true := fun _ => rfl
  have hchain := loopRun_chain (envOf pages) hOk pages m0 1
    (Or.inr (Or.inl (by rw [hm0]; rfl)))
    (by
      intro i hi
      have : m0.fetchCount = 0 := by rw [hm0]; rfl
      rw [this, Nat.zero_add]
      simp [envOf, List.get?_eq_getElem?, List.getElem?_eq_getElem hi,
        List.get_eq_getElem])
    hcont htr
  set mfin : Machine := stepChain m0 pages with hmfin
  have hq : pages.getLast? = some (pages.getLast hne) := List.getLast?_eq_getLast pages hne
  obtain ⟨hlr, hci⟩ := stepChain_hold pages m0 (pages.getLast hne) hq
  obtain ⟨cs, hcs⟩ := Option.isSome_iff_exists.mp
    (hcont (pages.getLast hne) (List.getLast_mem hne))
  have hend := loopRun_ended_now (envOf pages) mfin (pages.getLast hne) cs
    (by rw [hmfin]; exact hlr) hcs
    (by rw [hmfin, hci, hcs]; simp)
    hlast 0
  rw [show (0 + 1 : Nat) = 1 from rfl] at hend
  have hrunN : loopRun (needChain pages + 1) (envOf pages) m0 =
      (chainTrace m0.listObjectsV2args m0.bucket m0.bucketPfx (curTok m0) pages ++
        [Event.endEv],
       mfin, RunExit.ended) := by
    rw [hchain, hend]
  have hrun : loopRun fuel (envOf pages) m0 =
      (chainTrace m0.listObjectsV2args m0.bucket m0.bucketPfx (curTok m0) pages ++
        [Event.endEv],
       mfin, RunExit.ended) := by
    have := loopRun_mono (envOf pages) (needChain pages + 1) m0 _ _ _ hrunN
      (by simp) (fuel - (needChain pages + 1))
    rwa [Nat.add_sub_cancel' hfuel] at this
  have hread : read fuel (envOf pages) (mkMachine b pfx args)
      = (Event.restarted :: (loopRun fuel (envOf pages) m0).1,
         (loopRun fuel (envOf pages) m0).2) := by
    simp [read, mkMachine, startRead, hm0]
  rw [hread, hrun]
  have hargs : m0.listObjectsV2args = mergeReq defaultListObjectsV2Options args := rfl
  have hb : m0.bucket = b := rfl
  have hpfx : m0.bucketPfx = pfx := rfl
  have htok : curTok m0 = none := rfl
  rw [hargs, hb, hpfx, htok]

/-- `stepChain` performs one provider call per page of the chain. -/
lemma stepChain_fetchCount (rest : List ListResp) : ∀ m : Machine,
    (stepChain m rest).fetchCount = m.fetchCount + rest.length := by
  induction rest with
  | nil => intro m; simp [stepChain]
  | cons p rest ih =>
    intro m
    rw [stepChain, ih]
    simp
    omega

/-- The complete failing run, from the first `_read` on a fresh machine:
the provider serves the chain `goodPages` (all truncated, `Contents`
present) and then fails with `cause`.  The stream emits `restarted`, the
chain trace of the successful pages, and a single `error` notification
carrying the cause; the failing request is still logged; the run ends in
the `errored` state with `_stopped` left `false`. -/
lemma read_fail (goodPages : List ListResp) (cause b pfx : String)
    (args : PartialReq)
    (hcont : ∀ p ∈ goodPages, (p.Contents).isSome = true)
    (htr : ∀ p ∈ goodPages, truthy p.IsTruncated = true) :
    ∀ fuel, needChain goodPages + 1 ≤ fuel →
    read fuel (envFail goodPages cause) (mkMachine b pfx args) =
      (Event.restarted ::
        (chainTrace (mergeReq defaultListObjectsV2Options args) b pfx none goodPages ++
          [Event.errorEv (JsErr.providerErr cause)]),
       { stepChain { mkMachine b pfx args with stopped := false } goodPages with
           sentRequests :=
             (stepChain { mkMachine b pfx args with stopped := false } goodPages).sentRequests
               ++ [reqOf (stepChain { mkMachine b pfx args with stopped := false } goodPages)],
           fetchCount :=
             (stepChain { mkMachine b pfx args with stopped := false } goodPages).fetchCount + 1 },
       RunExit.errored (JsErr.providerErr cause)) := by
  intro fuel hfuel
  set m0 : Machine := { mkMachine b pfx args with stopped := false } with hm0
  have hOk : ∀ k, (envFail goodPages cause).pushOk k = true := fun _ => rfl
  have hchain := loopRun_chain (envFail goodPages cause) hOk goodPages m0 1
    (Or.inr (Or.inl (by rw [hm0]; rfl)))
    (by
      intro i hi
      have : m0.fetchCount = 0 := by rw [hm0]; rfl
      rw [this, Nat.zero_add]
      simp [envFail, List.get?_eq_getElem?, List.getElem?_eq_getElem hi,
        List.get_eq_getElem])
    hcont
    (fun p hp => htr p (List.dropLast_subset goodPages hp))
  set mfin : Machine := stepChain m0 goodPages with hmfin
  have hAfin : aboutToFetch mfin := by
    cases hgp : goodPages with
    | nil =>
      rw [hmfin, hgp]
      exact Or.inl (by rw [stepChain, hm0]; rfl)
    | cons q t =>
      have hq : goodPages.getLast? = some (goodPages.getLast (by rw [hgp]; simp)) :=
        List.getLast?_eq_getLast goodPages (by rw [hgp]; simp)
      obtain ⟨hlr, hci⟩ := stepChain_hold goodPages m0 _ hq
      obtain ⟨cs, hcs⟩ := Option.isSome_iff_exists.mp
        (hcont _ (List.getLast_mem (by rw [hgp]; simp)))
      refine Or.inr ⟨_, cs, ?_, hcs, ?_, ?_⟩
      · rw [hmfin]; exact hlr
      · rw [hmfin, hci, hcs]; simp
      · exact htr _ (List.getLast_mem (by rw [hgp]; simp))
  have hpfail : (envFail goodPages cause).pages mfin.fetchCount = Except.error cause := by
    have hfc : mfin.fetchCount = goodPages.length := by
      rw [hmfin, stepChain_fetchCount]
      simp [hm0, mkMachine]
    rw [hfc]
    simp [envFail, List.get?_eq_getElem?, List.getElem?_eq_none (Nat.le_refl _)]
  have hfail := loopRun_fail (envFail goodPages cause) mfin cause hAfin hpfail 0
  rw [show (0 + 1 : Nat) = 1 from rfl] at hfail
  have hrunN : loopRun (needChain goodPages + 1) (envFail goodPages cause) m0 =
      (chainTrace m0.listObjectsV2args m0.bucket m0.bucketPfx (curTok m0) goodPages ++
        [Event.errorEv (JsErr.providerErr cause)],
       { mfin with sentRequests := mfin.sentRequests ++ [reqOf mfin],
                   fetchCount := mfin.fetchCount + 1 },
       RunExit.errored (JsErr.providerErr cause)) := by
    rw [hchain, hfail]
  have hrun := loopRun_mono (envFail goodPages cause) (needChain goodPages + 1) m0 _ _ _
    hrunN (by simp) (fuel - (needChain goodPages + 1))
  rw [Nat.add_sub_cancel' hfuel] at hrun
  have hread : read fuel (envFail goodPages cause) (mkMachine b pfx args)
      = (Event.restarted :: (loopRun fuel (envFail goodPages cause) m0).1,
         (loopRun fuel (envFail goodPages cause) m0).2) := by
    simp [read, mkMachine, startRead, hm0]
  rw [hread, hrun]
  have hargs : m0.listObjectsV2args = mergeReq defaultListObjectsV2Options args := rfl
  have hb : m0.bucket = b := rfl
  have hpfx : m0.bucketPfx = pfx := rfl
  have htok : curTok m0 = none := rfl
  rw [hargs, hb, hpfx, htok]

/-- `mkReq` always carries the pagination token it is given, whatever the
caller-supplied extra options contain. -/
lemma sentToken_mkReq (args : PartialReq) (b pfx : String) (tok : Option String) :
    sentToken (mkReq args b pfx tok) = tok := rfl

/-- Shape of the request chain: one request per page; the first carries
the initial token; request `i+1` carries page `i`'s next-token field. -/
lemma expectedReqs_tokens (args : PartialReq) (b pfx : String) :
    ∀ (ps : List ListResp) (tok : Option String),
    (expectedReqs args b pfx tok ps).length = ps.length ∧
    (∀ h0 : 0 < (expectedReqs args b pfx tok ps).length,
      sentToken ((expectedReqs args b pfx tok ps).get ⟨0, h0⟩) = tok) ∧
    (∀ i (hi : i + 1 < (expectedReqs args b pfx tok ps).length)
        (hip : i < ps.length),
      sentToken ((expectedReqs args b pfx tok ps).get ⟨i + 1, hi⟩)
        = (ps.get ⟨i, hip⟩).NextContinuationToken) := by
  intro ps
  induction ps with
  | nil =>
    intro tok
    refine ⟨by simp [expectedReqs], ?_, ?_⟩
    · intro h0; simp [expectedReqs] at h0
    · intro i hi; simp [expectedReqs] at hi
  | cons p t ih =>
    intro tok
    refine ⟨?_, ?_, ?_⟩
    · simp [expectedReqs, (ih p.NextContinuationToken).1]
    · intro h0
      exact sentToken_mkReq args b pfx tok
    · intro i hi hip
      cases i with
      | zero =>
        have hlen : 0 < (expectedReqs args b pfx p.NextContinuationToken t).length := by
          simp [expectedReqs] at hi
          simpa [(ih p.NextContinuationToken).1] using hi
        exact (ih p.NextContinuationToken).2.1 hlen
      | succ j =>
        have hi' : j + 1 < (expectedReqs args b pfx p.NextContinuationToken t).length := by
          simpa [expectedReqs] using hi
        have hip' : j < t.length := by simpa using hip
        exact (ih p.NextContinuationToken).2.2 j hi' hip'

end IndexTs

/-! ### Concrete fixture (mirrors the test file's `createPage` pages) -/

/-- A concrete metadata record like those built by the test fixture. -/
def sampleObj (n : Nat) (k : String) : Obj :=
  { Key := k, ETag := "etag-" ++ k, Size := n * 100,
    LastModified := "2019-02-19T19:35:20.892Z", StorageClass := "STANDARD" }

/-- The three-page fixture of the tests: keys `0.jpg`..`5.jpg`, two per
page, the first two pages truncated with continuation tokens, the third
final. -/
def samplePages : List ListResp :=
  [{ Contents := some [some (sampleObj 0 "0.jpg"), some (sampleObj 1 "1.jpg")],
     IsTruncated := some true, NextContinuationToken := some "token-2",
     CommonPfx := none },
   { Contents := some [some (sampleObj 2 "2.jpg"), some (sampleObj 3 "3.jpg")],
     IsTruncated := some true, NextContinuationToken := some "token-4",
     CommonPfx := none },
   { Contents := some [some (sampleObj 4 "4.jpg"), some (sampleObj 5 "5.jpg")],
     IsTruncated := some false, NextContinuationToken := none,
     CommonPfx := none }]

/-- Extra caller options containing a stale continuation token (to witness
that the pagination fields always override them). -/
def staleArgs : PartialReq :=
  { Bucket := none, Pfx := none, ContinuationToken := some (some "stale-token"),
    MaxKeys := some 2 }

namespace IndexTs

/-- C1: for every provider returning pages P1..Pn — every fetch
succeeding with a present `Contents`, every page before the last marked
truncated and Pn not truncated — and a consumer that never pauses, the
stream's emitted output is exactly the concatenation of the pages' item
sequences, in page order and within each page in sequence order, with no
item duplicated and none omitted, and the run terminates normally. -/
theorem completeness_order (pages : List ListResp) (b pfx : String)
    (args : PartialReq) (fuel : Nat) (hne : pages ≠ [])
    (hcont : ∀ p ∈ pages, (p.Contents).isSome = true)
    (htr : ∀ p ∈ pages.dropLast, truthy p.IsTruncated = true)
    (hlast : truthy (pages.getLast hne).IsTruncated = false)
    (hfuel : needChain pages + 1 ≤ fuel) :
    outputs (read fuel (envOf pages) (mkMachine b pfx args)).1
      = pages.flatMap pageItems ∧
    (read fuel (envOf pages) (mkMachine b pfx args)).2.2 = RunExit.ended := by
  rw [read_chain pages b pfx args hne hcont htr hlast fuel hfuel]
  refine ⟨?_, rfl⟩
  simp [outputs_chainTrace]

/-- Witness for C1: the three-page test fixture emits exactly the six
items in order and ends. -/
theorem completeness_order_witness :
    outputs (read 7 (envOf samplePages) (mkMachine "some-bucket" "/p" staleArgs)).1
      = samplePages.flatMap pageItems ∧
    (read 7 (envOf samplePages) (mkMachine "some-bucket" "/p" staleArgs)).2.2
      = RunExit.ended :=
  completeness_order samplePages "some-bucket" "/p" staleArgs 7
    (by decide) (by decide) (by decide) (by decide) (by decide)

/-- C3: pagination chaining — across a full successful run, the provider
receives exactly one request per page; the first request's
continuation-token value is absent, even when the caller-supplied extra
request options contain one (the pagination fields are merged with highest
precedence); and the request of fetch `i+1` carries exactly the
next-token field of the response to fetch `i`. -/
theorem token_chaining (pages : List ListResp) (b pfx : String)
    (args : PartialReq) (fuel : Nat) (hne : pages ≠ [])
    (hcont : ∀ p ∈ pages, (p.Contents).isSome = true)
    (htr : ∀ p ∈ pages.dropLast, truthy p.IsTruncated = true)
    (hlast : truthy (pages.getLast hne).IsTruncated = false)
    (hfuel : needChain pages + 1 ≤ fuel) :
    ((read fuel (envOf pages) (mkMachine b pfx args)).2.1.sentRequests.length
        = pages.length) ∧
    (∀ h0 : 0 < (read fuel (envOf pages) (mkMachine b pfx args)).2.1.sentRequests.length,
      sentToken ((read fuel (envOf pages) (mkMachine b pfx args)).2.1.sentRequests.get
        ⟨0, h0⟩) = none) ∧
    (∀ i (hi : i + 1 <
        (read fuel (envOf pages) (mkMachine b pfx args)).2.1.sentRequests.length)
        (hip : i < pages.length),
      sentToken ((read fuel (envOf pages) (mkMachine b pfx args)).2.1.sentRequests.get
        ⟨i + 1, hi⟩) = (pages.get ⟨i, hip⟩).NextContinuationToken) := by
  have hrc := read_chain pages b pfx args hne hcont htr hlast fuel hfuel
  rw [hrc]
  set m0 : Machine := { mkMachine b pfx args with stopped := false } with hm0
  have hsent : (stepChain m0 pages).sentRequests
      = expectedReqs (mergeReq defaultListObjectsV2Options args) b pfx none pages := by
    rw [stepChain_sent]
    have h1 : m0.sentRequests = [] := rfl
    have h2 : m0.listObjectsV2args = mergeReq defaultListObjectsV2Options args := rfl
    have h3 : m0.bucket = b := rfl
    have h4 : m0.bucketPfx = pfx := rfl
    have h5 : curTok m0 = none := rfl
    rw [h1, h2, h3, h4, h5]
    rfl
  rw [hsent]
  exact expectedReqs_tokens (mergeReq defaultListObjectsV2Options args) b pfx pages none

/-- Witness for C3: on the fixture — with caller options carrying a stale
continuation token — three requests are sent; the first carries no token
and the later ones carry `token-2` and `token-4`. -/
theorem token_chaining_witness :
    ((read 7 (envOf samplePages) (mkMachine "some-bucket" "/p" staleArgs)).2.1.sentRequests.length
        = samplePages.length) ∧
    (∀ h0 : 0 < (read 7 (envOf samplePages) (mkMachine "some-bucket" "/p" staleArgs)).2.1.sentRequests.length,
      sentToken ((read 7 (envOf samplePages) (mkMachine "some-bucket" "/p" staleArgs)).2.1.sentRequests.get
        ⟨0, h0⟩) = none) ∧
    (∀ i (hi : i + 1 <
        (read 7 (envOf samplePages) (mkMachine "some-bucket" "/p" staleArgs)).2.1.sentRequests.length)
        (hip : i < samplePages.length),
      sentToken ((read 7 (envOf samplePages) (mkMachine "some-bucket" "/p" staleArgs)).2.1.sentRequests.get
        ⟨i + 1, hi⟩) = (samplePages.get ⟨i, hip⟩).NextContinuationToken) :=
  token_chaining samplePages "some-bucket" "/p" staleArgs 7
    (by decide) (by decide) (by decide) (by decide) (by decide)

end IndexTs

/-- A page fixture carrying common-prefix groupings. -/
def pfxPage : ListResp :=
  { Contents := some [some (sampleObj 0 "0.jpg")],
    IsTruncated := some false, NextContinuationToken := none,
    CommonPfx := some [{ Pfx := some "photos/" }, { Pfx := some "videos/" }] }

/-- Empty caller options. -/
def noArgs : PartialReq :=
  { Bucket := none, Pfx := none, ContinuationToken := none, MaxKeys := none }

namespace IndexTs

/-- C8: one loop pass over a successful fetch whose response carries
common-prefix groupings appends: the `page` notification, then exactly one
`prefix` notification per grouping in response order, and only then the
page's item emissions (entry 0 in this pass, the remaining entries inside
the continuation) — so every grouping's notification fires after `page`
and before any item of that page. -/
theorem prefix_notifications (env : Env) (m : Machine) (p : ListResp)
    (cs : List (Option Obj)) (l : List CommonPfx) (fuel : Nat)
    (hA : aboutToFetch m) (hp : env.pages m.fetchCount = Except.ok p)
    (hcs : p.Contents = some cs) (hl : p.CommonPfx = some l)
    (hOk : ∀ k, env.pushOk k = true) :
    loopRun (fuel + 1) env m =
      ((Event.pageEv (reqOf m) p ::
         ((l.map fun cp => Event.pfxEv cp.Pfx) ++
           ((cs.take 1).filterMap id).map Event.pushEv)) ++
        (loopRun fuel env
          { m with lastResponse := some p, currentIndex := 1,
                   fetchCount := m.fetchCount + 1,
                   pushCount := m.pushCount + ((cs.take 1).filterMap id).length,
                   sentRequests := m.sentRequests ++ [reqOf m] }).1,
       (loopRun fuel env
         { m with lastResponse := some p, currentIndex := 1,
                  fetchCount := m.fetchCount + 1,
                  pushCount := m.pushCount + ((cs.take 1).filterMap id).length,
                  sentRequests := m.sentRequests ++ [reqOf m] }).2) := by
  have hif := iter_fetch env m p cs hA hp hcs hOk
  simp only [loopRun, hif]
  simp [pfxEvs, hl]

/-- Witness for C8: a single-page run whose page lists the groupings
`photos/`, `videos/` emits the two `prefix` notifications between the
`page` event and the item. -/
theorem prefix_notifications_witness :
    loopRun 3 (envOf [pfxPage]) { mkMachine "b" "" noArgs with stopped := false } =
      ((Event.pageEv (reqOf { mkMachine "b" "" noArgs with stopped := false }) pfxPage ::
         ((([{ Pfx := some "photos/" }, { Pfx := some "videos/" }] : List CommonPfx).map
             fun cp => Event.pfxEv cp.Pfx) ++
           ((((pfxPage.Contents.getD []).take 1).filterMap id).map Event.pushEv))) ++
        (loopRun 2 (envOf [pfxPage])
          { { mkMachine "b" "" noArgs with stopped := false } with
              lastResponse := some pfxPage, currentIndex := 1,
              fetchCount := 0 + 1,
              pushCount := 0 + (((pfxPage.Contents.getD []).take 1).filterMap id).length,
              sentRequests := [] ++
                [reqOf { mkMachine "b" "" noArgs with stopped := false }] }).1,
       (loopRun 2 (envOf [pfxPage])
         { { mkMachine "b" "" noArgs with stopped := false } with
             lastResponse := some pfxPage, currentIndex := 1,
             fetchCount := 0 + 1,
             pushCount := 0 + (((pfxPage.Contents.getD []).take 1).filterMap id).length,
             sentRequests := [] ++
               [reqOf { mkMachine "b" "" noArgs with stopped := false }] }).2) :=
  prefix_notifications (envOf [pfxPage])
    { mkMachine "b" "" noArgs with stopped := false } pfxPage
    (pfxPage.Contents.getD []) [{ Pfx := some "photos/" }, { Pfx := some "videos/" }] 2
    (Or.inl rfl) rfl rfl rfl (fun _ => rfl)

end IndexTs

namespace IndexTs

/-- The emission code never terminates the stream. -/
lemma emitStep_ne_ended (env : Env) (m : Machine) (evs evs' : List (Event Obj))
    (m1 : Machine) : emitStep env m evs ≠ IterOut.ended evs' m1 := by
  cases hr : m.lastResponse with
  | none => simp [emitStep, hr]
  | some r =>
    cases hc : r.Contents with
    | none => simp [emitStep, hr, hc]
    | some cs =>
      simp only [emitStep, hr, hc]
      cases hch : (cs.get? m.currentIndex).getD none with
      | none => simp [hch]
      | some c =>
        by_cases hok : env.pushOk m.pushCount = true
        · simp [hch, hok]
        · simp [hch, hok]

/-- The fetch path never terminates the stream in the same pass. -/
lemma fetchThenEmit_ne_ended (env : Env) (m : Machine) (evs' : List (Event Obj))
    (m1 : Machine) : fetchThenEmit env m ≠ IterOut.ended evs' m1 := by
  rw [fetchThenEmit, loadNextPage]
  cases hp : env.pages m.fetchCount with
  | error e => simp
  | ok data =>
    simp only []
    exact emitStep_ne_ended env _ _ evs' m1

/-- Inversion: a loop pass terminates the stream only from the state with a
held response, present `Contents`, exhausted cursor and a falsy truncation
flag, emitting exactly the end-of-sequence signal and leaving the state
untouched. -/
lemma iter_ended_inv (env : Env) (m : Machine) (evs : List (Event Obj))
    (m1 : Machine) (h : iter env m = IterOut.ended evs m1) :
    evs = [Event.endEv] ∧ m1 = m ∧
    ∃ r cs, m.lastResponse = some r ∧ r.Contents = some cs ∧
      cs.length ≤ m.currentIndex ∧ truthy r.IsTruncated = false := by
  cases hr : m.lastResponse with
  | none =>
    rw [iter, hr] at h
    exact absurd h (fetchThenEmit_ne_ended env m evs m1)
  | some r =>
    cases hc : r.Contents with
    | none => simp [iter, hr, hc] at h
    | some cs =>
      simp only [iter, hr, hc] at h
      by_cases hlen : cs.length ≤ m.currentIndex
      · rw [if_pos hlen] at h
        by_cases ht : truthy r.IsTruncated = true
        · rw [if_pos ht] at h
          exact absurd h (fetchThenEmit_ne_ended env m evs m1)
        · rw [if_neg ht] at h
          have hev : [Event.endEv] = evs ∧ m = m1 := by
            constructor
            · exact (IterOut.ended.injEq _ _ _ _).mp h |>.1
            · exact (IterOut.ended.injEq _ _ _ _).mp h |>.2
          refine ⟨hev.1.symm, hev.2.symm, r, cs, rfl, hc, hlen, ?_⟩
          simpa using ht
      · rw [if_neg hlen] at h
        exact absurd h (emitStep_ne_ended env m [] evs m1)

/-- Inversion lifted to whole runs: a run that terminates normally emits
the end-of-sequence signal as its very last event, and its final state has
a held response with present `Contents`, exhausted cursor and a falsy
truncation flag. -/
lemma loopRun_ended_inv (env : Env) :
    ∀ (fuel : Nat) (m : Machine) (tr : List (Event Obj)) (m' : Machine),
    loopRun fuel env m = (tr, m', RunExit.ended) →
    (∃ t, tr = t ++ [Event.endEv]) ∧
    ∃ r cs, m'.lastResponse = some r ∧ r.Contents = some cs ∧
      cs.length ≤ m'.currentIndex ∧ truthy r.IsTruncated = false := by
  intro fuel
  induction fuel with
  | zero =>
    intro m tr m' h
    rw [loopRun] at h
    have : RunExit.outOfFuel = RunExit.ended := congrArg (fun t => t.2.2) h
    cases this
  | succ fuel ih =>
    intro m tr m' h
    rw [loopRun] at h
    cases hi : iter env m with
    | next evs m1 =>
      simp only [hi] at h
      rcases hrec : loopRun fuel env m1 with ⟨tr1, m1', ex1⟩
      rw [hrec] at h
      simp only [Prod.mk.injEq] at h
      obtain ⟨h1, h2, h3⟩ := h
      obtain ⟨⟨t, ht⟩, hst⟩ := ih m1 tr1 m1' (by rw [hrec, h2, h3])
      refine ⟨⟨evs ++ t, by rw [← h1, ht, List.append_assoc]⟩, ?_⟩
      rw [← h2]
      exact hst
    | ended evs m1 =>
      simp only [hi, Prod.mk.injEq] at h
      obtain ⟨h1, h2, h3⟩ := h
      obtain ⟨he, hm, hstate⟩ := iter_ended_inv env m evs m1 hi
      refine ⟨⟨[], by rw [← h1, he]; simp⟩, ?_⟩
      rw [← h2, hm]
      exact hstate
    | paused evs m1 =>
      simp only [hi, Prod.mk.injEq] at h
      cases h.2.2
    | thrown evs m1 e =>
      simp only [hi, Prod.mk.injEq] at h
      cases h.2.2

/-- C2: the stream terminates normally if and only if a response is held,
its item sequence is exhausted by the cursor, and the most recently
fetched response's truncation flag is falsy.  Forward: from such a state
the very next pass pushes `null` and returns — no fetch, no emission, no
state change.  Backward: any run that terminates normally does so with the
end-of-sequence signal as its last event and its final state satisfying
exactly that condition — the sole normal termination path. -/
theorem termination_iff (env : Env) (m : Machine) (fuel : Nat) :
    ((∃ r cs, m.lastResponse = some r ∧ r.Contents = some cs ∧
        cs.length ≤ m.currentIndex ∧ truthy r.IsTruncated = false) →
      loopRun (fuel + 1) env m = ([Event.endEv], m, RunExit.ended)) ∧
    (∀ (tr : List (Event Obj)) (m' : Machine),
      loopRun fuel env m = (tr, m', RunExit.ended) →
      (∃ t, tr = t ++ [Event.endEv]) ∧
      ∃ r cs, m'.lastResponse = some r ∧ r.Contents = some cs ∧
        cs.length ≤ m'.currentIndex ∧ truthy r.IsTruncated = false) := by
  constructor
  · rintro ⟨r, cs, hr, hc, hlen, ht⟩
    exact loopRun_ended_now env m r cs hr hc hlen ht fuel
  · intro tr m' h
    exact loopRun_ended_inv env fuel m tr m' h

/-- Witness for C2: a machine holding the exhausted final fixture page
terminates immediately, emitting only the end-of-sequence signal. -/
theorem termination_iff_witness :
    loopRun 1 (envOf samplePages)
      { mkMachine "b" "" noArgs with
          lastResponse := some { Contents := some [], IsTruncated := some false,
                                 NextContinuationToken := none, CommonPfx := none },
          currentIndex := 0, stopped := false } =
      ([Event.endEv],
       { mkMachine "b" "" noArgs with
           lastResponse := some { Contents := some [], IsTruncated := some false,
                                  NextContinuationToken := none, CommonPfx := none },
           currentIndex := 0, stopped := false },
       RunExit.ended) :=
  (termination_iff (envOf samplePages)
    { mkMachine "b" "" noArgs with
        lastResponse := some { Contents := some [], IsTruncated := some false,
                               NextContinuationToken := none, CommonPfx := none },
        currentIndex := 0, stopped := false } 0).1
    ⟨_, [], rfl, rfl, Nat.le_refl 0, rfl⟩

end IndexTs

namespace IndexTs

/-- C4: backpressure correctness.  If the consumer's `push` reply signals
"buffer full" when item `k` (a non-nullish entry at the cursor) is
emitted, the run emits that item, sets `_stopped`, fires the `stopped`
notification and exits at once — no further fetch, no further emission
until the next `_read`.  The next `_read` restarts production and the
first item it emits is exactly entry `k+1` of the same held response (no
item repeated, none skipped), from the preserved cursor state. -/
theorem backpressure_pause_resume (env : Env) (m : Machine) (r : ListResp)
    (cs : List (Option Obj)) (c c' : Obj) (fuel f : Nat)
    (hr : m.lastResponse = some r) (hc : r.Contents = some cs)
    (he : cs.get? m.currentIndex = some (some c))
    (he' : cs.get? (m.currentIndex + 1) = some (some c'))
    (hp : env.pushOk m.pushCount = false)
    (hp' : env.pushOk (m.pushCount + 1) = true) :
    loopRun (fuel + 1) env m =
      ([Event.pushEv c, Event.stoppedEv],
       { m with currentIndex := m.currentIndex + 1,
                pushCount := m.pushCount + 1, stopped := true },
       RunExit.paused) ∧
    read (f + 2) env
        { m with currentIndex := m.currentIndex + 1,
                 pushCount := m.pushCount + 1, stopped := true } =
      (Event.restarted :: Event.pushEv c' ::
         (loopRun (f + 1) env
           { m with currentIndex := m.currentIndex + 2,
                    pushCount := m.pushCount + 2, stopped := false }).1,
       (loopRun (f + 1) env
         { m with currentIndex := m.currentIndex + 2,
                  pushCount := m.pushCount + 2, stopped := false }).2) := by
  have hidx : m.currentIndex < cs.length := by
    by_contra hh
    rw [List.get?_eq_getElem?, List.getElem?_eq_none (Nat.le_of_not_lt hh)] at he
    cases he
  have hidx' : m.currentIndex + 1 < cs.length := by
    by_contra hh
    rw [List.get?_eq_getElem?, List.getElem?_eq_none (Nat.le_of_not_lt hh)] at he'
    cases he'
  have hgetd : cs[m.currentIndex]?.getD none = some c := by
    rw [← List.get?_eq_getElem?, he]; rfl
  have hgetd' : cs[m.currentIndex + 1]?.getD none = some c' := by
    rw [← List.get?_eq_getElem?, he']; rfl
  constructor
  · have hiter : iter env m = IterOut.paused [Event.pushEv c, Event.stoppedEv]
        { m with currentIndex := m.currentIndex + 1,
                 pushCount := m.pushCount + 1, stopped := true } := by
      simp only [iter, emitStep, hr, hc]
      rw [if_neg (Nat.not_le.mpr hidx)]
      simp [hgetd, hp]
    simp only [loopRun, hiter]
  · have hiter' : iter env
        { m with currentIndex := m.currentIndex + 1,
                 pushCount := m.pushCount + 1, stopped := false } =
        IterOut.next [Event.pushEv c']
          { m with currentIndex := m.currentIndex + 2,
                   pushCount := m.pushCount + 2, stopped := false } := by
      simp only [iter, emitStep]
      simp only [hr, hc]
      rw [if_neg (Nat.not_le.mpr hidx')]
      simp [hgetd', hp']
    have hread : read (f + 2) env
        { m with currentIndex := m.currentIndex + 1,
                 pushCount := m.pushCount + 1, stopped := true } =
        (Event.restarted ::
          (loopRun (f + 2) env
            { m with currentIndex := m.currentIndex + 1,
                     pushCount := m.pushCount + 1, stopped := false }).1,
         (loopRun (f + 2) env
           { m with currentIndex := m.currentIndex + 1,
                    pushCount := m.pushCount + 1, stopped := false }).2) := by
      simp [read, startRead]
    rw [hread]
    have harith : f + 2 = (f + 1) + 1 := rfl
    rw [harith]
    simp only [loopRun, hiter']
    simp

end IndexTs

/-- First fixture page, used for the backpressure witness. -/
def bpPage : ListResp :=
  { Contents := some [some (sampleObj 0 "0.jpg"), some (sampleObj 1 "1.jpg")],
    IsTruncated := some true, NextContinuationToken := some "token-2",
    CommonPfx := none }

/-- Environment whose consumer pauses exactly on the first push. -/
def bpEnv : Env :=
  { pages := (envOf samplePages).pages, pushOk := fun n => n != 0 }

/-- Machine holding `bpPage` at cursor 0 inside a running production loop. -/
def bpMachine : Machine :=
  { mkMachine "b" "" noArgs with
      lastResponse := some bpPage, currentIndex := 0, stopped := false }

namespace IndexTs

/-- Witness for C4: with `bpPage` held at cursor 0 and a consumer that
pauses on the first push, the run emits item 0 then stops; the next
`_read` resumes and first emits item 1. -/
theorem backpressure_pause_resume_witness :
    loopRun 4 bpEnv bpMachine =
      ([Event.pushEv (sampleObj 0 "0.jpg"), Event.stoppedEv],
       { bpMachine with currentIndex := bpMachine.currentIndex + 1,
                        pushCount := bpMachine.pushCount + 1, stopped := true },
       RunExit.paused) ∧
    read (3 + 2) bpEnv
        { bpMachine with currentIndex := bpMachine.currentIndex + 1,
                         pushCount := bpMachine.pushCount + 1, stopped := true } =
      (Event.restarted :: Event.pushEv (sampleObj 1 "1.jpg") ::
         (loopRun (3 + 1) bpEnv
           { bpMachine with currentIndex := bpMachine.currentIndex + 2,
                            pushCount := bpMachine.pushCount + 2, stopped := false }).1,
       (loopRun (3 + 1) bpEnv
         { bpMachine with currentIndex := bpMachine.currentIndex + 2,
                          pushCount := bpMachine.pushCount + 2, stopped := false }).2) :=
  backpressure_pause_resume bpEnv bpMachine bpPage
    [some (sampleObj 0 "0.jpg"), some (sampleObj 1 "1.jpg")]
    (sampleObj 0 "0.jpg") (sampleObj 1 "1.jpg") 3 3 rfl rfl rfl rfl rfl rfl

end IndexTs

namespace IndexTs

/-- C5: error propagation.  If the provider serves `goodPages` (all
truncated, `Contents` present) and fails on the following fetch, the run
emits exactly the items of those pages (pages 1..m-1), fires exactly one
`error` notification carrying the provider's cause, as the very last
event; the run ends in the errored state with `_stopped` still `false`,
so every further `_read` is a no-op: no resumption, no re-fetch, no
further items or notifications — the failed state is absorbing. -/
theorem provider_failure (goodPages : List ListResp) (cause b pfx : String)
    (args : PartialReq) (fuel : Nat)
    (hcont : ∀ p ∈ goodPages, (p.Contents).isSome = true)
    (htr : ∀ p ∈ goodPages, truthy p.IsTruncated = true)
    (hfuel : needChain goodPages + 1 ≤ fuel) :
    outputs (read fuel (envFail goodPages cause) (mkMachine b pfx args)).1
      = goodPages.flatMap pageItems ∧
    ((read fuel (envFail goodPages cause) (mkMachine b pfx args)).1.filter isErrorEv)
      = [Event.errorEv (JsErr.providerErr cause)] ∧
    (read fuel (envFail goodPages cause) (mkMachine b pfx args)).1.getLast?
      = some (Event.errorEv (JsErr.providerErr cause)) ∧
    (read fuel (envFail goodPages cause) (mkMachine b pfx args)).2.2
      = RunExit.errored (JsErr.providerErr cause) ∧
    (read fuel (envFail goodPages cause) (mkMachine b pfx args)).2.1.stopped = false ∧
    (∀ f', read f' (envFail goodPages cause)
        (read fuel (envFail goodPages cause) (mkMachine b pfx args)).2.1
      = ([], (read fuel (envFail goodPages cause) (mkMachine b pfx args)).2.1,
         RunExit.noop)) := by
  have hrf := read_fail goodPages cause b pfx args hcont htr fuel hfuel
  rw [hrf]
  have hstopped : (stepChain { mkMachine b pfx args with stopped := false }
      goodPages).stopped = false :=
    (stepChain_config goodPages _).2.2.2
  refine ⟨?_, ?_, ?_, rfl, hstopped, ?_⟩
  · simp [outputs_chainTrace]
  · simp [List.filter_append, chainTrace_no_error]
  · rw [show (Event.restarted ::
        (chainTrace (mergeReq defaultListObjectsV2Options args) b pfx none goodPages ++
          [Event.errorEv (JsErr.providerErr cause)]))
      = (Event.restarted ::
          chainTrace (mergeReq defaultListObjectsV2Options args) b pfx none goodPages) ++
        [Event.errorEv (JsErr.providerErr cause)] from by simp]
    exact List.getLast?_concat _
  · intro f'
    simp [read, hstopped]

end IndexTs

/-- The truncated fixture prefix (pages 1 and 2), used for the failure
witness. -/
def sampleGoodPages : List ListResp :=
  [{ Contents := some [some (sampleObj 0 "0.jpg"), some (sampleObj 1 "1.jpg")],
     IsTruncated := some true, NextContinuationToken := some "token-2",
     CommonPfx := none },
   { Contents := some [some (sampleObj 2 "2.jpg"), some (sampleObj 3 "3.jpg")],
     IsTruncated := some true, NextContinuationToken := some "token-4",
     CommonPfx := none }]

namespace IndexTs

/-- Witness for C5: two successful pages then a failing third fetch —
four items out, one terminal error event, further reads are no-ops. -/
theorem provider_failure_witness :
    outputs (read 5 (envFail sampleGoodPages "some error") (mkMachine "b" "/p" noArgs)).1
      = sampleGoodPages.flatMap pageItems ∧
    ((read 5 (envFail sampleGoodPages "some error") (mkMachine "b" "/p" noArgs)).1.filter isErrorEv)
      = [Event.errorEv (JsErr.providerErr "some error")] ∧
    (read 5 (envFail sampleGoodPages "some error") (mkMachine "b" "/p" noArgs)).1.getLast?
      = some (Event.errorEv (JsErr.providerErr "some error")) ∧
    (read 5 (envFail sampleGoodPages "some error") (mkMachine "b" "/p" noArgs)).2.2
      = RunExit.errored (JsErr.providerErr "some error") ∧
    (read 5 (envFail sampleGoodPages "some error") (mkMachine "b" "/p" noArgs)).2.1.stopped = false ∧
    (∀ f', read f' (envFail sampleGoodPages "some error")
        (read 5 (envFail sampleGoodPages "some error") (mkMachine "b" "/p" noArgs)).2.1
      = ([], (read 5 (envFail sampleGoodPages "some error") (mkMachine "b" "/p" noArgs)).2.1,
         RunExit.noop)) :=
  provider_failure sampleGoodPages "some error" "b" "/p" noArgs 5
    (by decide) (by decide) (by decide)

end IndexTs

namespace IndexTs

/-- C7: defensive nullish skip.  When the held response's entry at the
current cursor index is nullish, the pass produces no emission and no
notification of any kind, raises no error, advances the cursor past the
entry, and the loop simply continues — pushed values are `Obj`-typed, so
the stream never emits a nullish item. -/
theorem nullish_skipped (env : Env) (m : Machine) (r : ListResp)
    (cs : List (Option Obj)) (fuel : Nat)
    (hr : m.lastResponse = some r) (hc : r.Contents = some cs)
    (hidx : m.currentIndex < cs.length)
    (he : cs.get? m.currentIndex = some none) :
    iter env m = IterOut.next [] { m with currentIndex := m.currentIndex + 1 } ∧
    loopRun (fuel + 1) env m
      = loopRun fuel env { m with currentIndex := m.currentIndex + 1 } := by
  have hgetd : cs[m.currentIndex]?.getD none = none := by
    rw [← List.get?_eq_getElem?, he]; rfl
  have hiter : iter env m = IterOut.next []
      { m with currentIndex := m.currentIndex + 1 } := by
    simp only [iter, emitStep, hr, hc]
    rw [if_neg (Nat.not_le.mpr hidx)]
    simp [hgetd]
  refine ⟨hiter, ?_⟩
  simp only [loopRun, hiter]
  simp

end IndexTs

/-- A page whose second entry is nullish (malformed provider response). -/
def nullEntryPage : ListResp :=
  { Contents := some [some (sampleObj 0 "0.jpg"), none, some (sampleObj 2 "2.jpg")],
    IsTruncated := some false, NextContinuationToken := none, CommonPfx := none }

namespace IndexTs

/-- Machine holding `nullEntryPage` at the nullish entry (cursor 1). -/
def nullMachine : Machine :=
  { mkMachine "b" "" noArgs with
      lastResponse := some nullEntryPage, currentIndex := 1, stopped := false,
      pushCount := 1 }

/-- Witness for C7: with `nullEntryPage` held at cursor 1 (the nullish
entry), the pass emits nothing, errors nothing, and just advances the
cursor; the continuation then emits `2.jpg` and ends — the nullish entry
is silently skipped. -/
theorem nullish_skipped_witness :
    (iter (envOf [nullEntryPage]) nullMachine =
      IterOut.next []
        { nullMachine with currentIndex := nullMachine.currentIndex + 1 } ∧
    loopRun (3 + 1) (envOf [nullEntryPage]) nullMachine
      = loopRun 3 (envOf [nullEntryPage])
          { nullMachine with currentIndex := nullMachine.currentIndex + 1 }) ∧
    outputs (loopRun (3 + 1) (envOf [nullEntryPage]) nullMachine).1
      = [sampleObj 2 "2.jpg"] :=
  ⟨nullish_skipped (envOf [nullEntryPage]) nullMachine nullEntryPage
      [some (sampleObj 0 "0.jpg"), none, some (sampleObj 2 "2.jpg")]
      3 rfl rfl (by decide) rfl,
   by decide⟩

end IndexTs

/-- A response with the item sequence entirely absent. -/
def noContentsPage : ListResp :=
  { Contents := none, IsTruncated := some false,
    NextContinuationToken := none, CommonPfx := none }

namespace IndexTs

/-- C10 (amended): a successful fetch whose response lacks `Contents`
entirely is surfaced as an error with permanent halt — but the throw
happens in the same loop pass, when the absent item sequence is indexed
(`Contents[this._currentIndex++]`), after the `page` event and any
`prefix` notifications; the `.length` read of the loop condition is never
reached with an absent `Contents`.  No item is pushed from such a page,
and since `_stopped` stays `false`, every further `_read` is a no-op. -/
theorem absent_contents_error (env : Env) (m : Machine) (p : ListResp) (fuel : Nat)
    (hA : aboutToFetch m) (hp : env.pages m.fetchCount = Except.ok p)
    (hcs : p.Contents = none) :
    loopRun (fuel + 1) env m =
      ((Event.pageEv (reqOf m) p :: pfxEvs p) ++
         [Event.errorEv JsErr.typeErrorIndex],
       { m with lastResponse := some p, currentIndex := 1,
                fetchCount := m.fetchCount + 1,
                sentRequests := m.sentRequests ++ [reqOf m] },
       RunExit.errored JsErr.typeErrorIndex) ∧
    (m.stopped = false → ∀ f',
      read f' env
          { m with lastResponse := some p, currentIndex := 1,
                   fetchCount := m.fetchCount + 1,
                   sentRequests := m.sentRequests ++ [reqOf m] }
        = ([], { m with lastResponse := some p, currentIndex := 1,
                        fetchCount := m.fetchCount + 1,
                        sentRequests := m.sentRequests ++ [reqOf m] },
           RunExit.noop)) := by
  constructor
  · have hiter : iter env m = IterOut.thrown
        (Event.pageEv (reqOf m) p :: pfxEvs p)
        { m with lastResponse := some p, currentIndex := 1,
                 fetchCount := m.fetchCount + 1,
                 sentRequests := m.sentRequests ++ [reqOf m] }
        JsErr.typeErrorIndex := by
      rw [iter_toFetch env m hA]
      simp [fetchThenEmit, loadNextPage, hp, emitStep, hcs]
    simp only [loopRun, hiter]
  · intro hst f'
    simp [read, hst]

/-- Counterexample for C10 as stated: on a fetch returning a page with no
`Contents`, the error actually surfaced is the `TypeError` from indexing
the absent sequence in the same pass (`typeErrorIndex`), not the
`TypeError` from reading its `.length` in the next loop iteration
(`typeErrorLength`), which never occurs in the trace. -/
theorem absent_contents_counterexample :
    Event.errorEv JsErr.typeErrorIndex
        ∈ (read 3 (envOf [noContentsPage]) (mkMachine "b" "" noArgs)).1 ∧
    Event.errorEv JsErr.typeErrorLength
        ∉ (read 3 (envOf [noContentsPage]) (mkMachine "b" "" noArgs)).1 ∧
    (read 3 (envOf [noContentsPage]) (mkMachine "b" "" noArgs)).2.2
      = RunExit.errored JsErr.typeErrorIndex := by
  decide

/-- Witness for C10 (amended): the concrete no-`Contents` run yields the
`page` event then the index-access `TypeError`, and further reads are
no-ops. -/
theorem absent_contents_error_witness :
    loopRun (1 + 1) (envOf [noContentsPage])
        { mkMachine "b" "" noArgs with stopped := false } =
      ((Event.pageEv (reqOf { mkMachine "b" "" noArgs with stopped := false })
          noContentsPage :: pfxEvs noContentsPage) ++
         [Event.errorEv JsErr.typeErrorIndex],
       { { mkMachine "b" "" noArgs with stopped := false } with
           lastResponse := some noContentsPage, currentIndex := 1,
           fetchCount := 0 + 1,
           sentRequests := [] ++
             [reqOf { mkMachine "b" "" noArgs with stopped := false }] },
       RunExit.errored JsErr.typeErrorIndex) ∧
    ({ mkMachine "b" "" noArgs with stopped := false }.stopped = false → ∀ f',
      read f' (envOf [noContentsPage])
          { { mkMachine "b" "" noArgs with stopped := false } with
              lastResponse := some noContentsPage, currentIndex := 1,
              fetchCount := 0 + 1,
              sentRequests := [] ++
                [reqOf { mkMachine "b" "" noArgs with stopped := false }] }
        = ([], { { mkMachine "b" "" noArgs with stopped := false } with
                   lastResponse := some noContentsPage, currentIndex := 1,
                   fetchCount := 0 + 1,
                   sentRequests := [] ++
                     [reqOf { mkMachine "b" "" noArgs with stopped := false }] },
           RunExit.noop)) :=
  absent_contents_error (envOf [noContentsPage])
    { mkMachine "b" "" noArgs with stopped := false } noContentsPage 1
    (Or.inl rfl) rfl rfl

end IndexTs

namespace Part000

/-- C6: mode independence.  For a successfully listed item (a non-nullish
entry at the cursor) the value pushed is exactly the item's `Key` field
when `fullMetadata` is off, and exactly the full metadata record when it
is on — nothing else of the step depends on the mode. -/
theorem emitted_value (fm : Bool) (env : Env) (m : Machine) (r : ListResp)
    (cs : List (Option Obj)) (o : Obj)
    (hr : m.lastResponse = some r) (hc : r.Contents = some cs)
    (he : cs.get? m.currentIndex = some (some o))
    (hok : env.pushOk m.pushCount = true) :
    emitStep fm env m [] =
      IterOut.next
        [Event.pushEv (if fm then Chunk.full (some o) else Chunk.keyOnly o.Key)]
        { m with currentIndex := m.currentIndex + 1,
                 pushCount := m.pushCount + 1 } := by
  have hgetd : cs[m.currentIndex]?.getD none = some o := by
    rw [← List.get?_eq_getElem?, he]; rfl
  cases fm <;> simp [emitStep, hr, hc, hgetd, hok]

/-- Witness for C6: on the held fixture page, metadata mode pushes the
record of `0.jpg` and key mode pushes the string key. -/
theorem emitted_value_witness :
    (emitStep true (envOf samplePages) bpMachine [] =
      IterOut.next
        [Event.pushEv (if true then Chunk.full (some (sampleObj 0 "0.jpg"))
                       else Chunk.keyOnly (sampleObj 0 "0.jpg").Key)]
        { bpMachine with currentIndex := bpMachine.currentIndex + 1,
                         pushCount := bpMachine.pushCount + 1 }) ∧
    (emitStep false (envOf samplePages) bpMachine [] =
      IterOut.next
        [Event.pushEv (if false then Chunk.full (some (sampleObj 0 "0.jpg"))
                       else Chunk.keyOnly (sampleObj 0 "0.jpg").Key)]
        { bpMachine with currentIndex := bpMachine.currentIndex + 1,
                         pushCount := bpMachine.pushCount + 1 }) :=
  ⟨emitted_value true (envOf samplePages) bpMachine bpPage
      [some (sampleObj 0 "0.jpg"), some (sampleObj 1 "1.jpg")]
      (sampleObj 0 "0.jpg") rfl rfl rfl rfl,
   emitted_value false (envOf samplePages) bpMachine bpPage
      [some (sampleObj 0 "0.jpg"), some (sampleObj 1 "1.jpg")]
      (sampleObj 0 "0.jpg") rfl rfl rfl rfl⟩

/-- C9: requesting `fullMetadata` forces object mode: whatever object-mode
value the caller's stream options carry, the options handed to the
`Readable` super constructor have `objectMode = true`; with `fullMetadata`
not requested (absent or `false`), the caller's object-mode option passes
through unchanged. -/
theorem objectMode_forcing (o : StreamOptions) :
    (o.fullMetadata = some true → (mergedOptions o).objectMode = some true) ∧
    (o.fullMetadata ≠ some true → (mergedOptions o).objectMode = o.objectMode) := by
  constructor
  · intro h
    simp [mergedOptions, spreadOptions, defaultOptions, h, truthy]
  · intro h
    cases hfm : o.fullMetadata with
    | none => simp [mergedOptions, spreadOptions, defaultOptions, hfm, truthy]
    | some bv =>
      cases bv with
      | false => simp [mergedOptions, spreadOptions, defaultOptions, hfm, truthy]
      | true => exact absurd hfm h

/-- Witness for C9: a caller passing `objectMode: false` with
`fullMetadata: true` still gets `objectMode = true`; the same caller with
`fullMetadata: false` keeps `objectMode = false`. -/
theorem objectMode_forcing_witness :
    (mergedOptions { objectMode := some false, fullMetadata := some true }).objectMode
      = some true ∧
    (mergedOptions { objectMode := some false, fullMetadata := some false }).objectMode
      = some false :=
  ⟨(objectMode_forcing { objectMode := some false, fullMetadata := some true }).1 rfl,
   (objectMode_forcing { objectMode := some false, fullMetadata := some false }).2
     (by decide)⟩

end Part000
